import Mathlib

/-!
Shallow embedding of `scripts/generate-stats.mjs`, a single-shot script that
fetches a user's profile and repositories from a GraphQL API, aggregates
commit counts and language sizes, and renders a terminal-styled SVG.

JavaScript strings are modelled as `List Char`; JS numbers arising here are
non-negative integers (byte sizes, counts) modelled as `Nat`, except where a
real-valued computation occurs (`Math.round((size / total) * 100)`), which is
modelled exactly over `ℚ`.  JS objects used as dictionaries (`langSizes`) are
modelled as association lists in key-insertion order, matching
`Object.entries` enumeration order for non-integer-like string keys.
-/

namespace GenStats

/-- Convert a Lean string literal to the `List Char` model of JS strings. -/
def str (s : String) : List Char := s.data

/-- The double-quote character. -/
def quoteC : Char := Char.ofNat 34

/-- The apostrophe character. -/
def aposC : Char := Char.ofNat 39

/-- `String.prototype.replaceAll` with a single-character pattern:
every occurrence of `pat` is replaced by `rep`. -/
def replaceAllC (s : List Char) (pat : Char) (rep : List Char) : List Char :=
  s.flatMap (fun c => if c = pat then rep else [c])

/-- Embeds `esc` (generate-stats.mjs lines 31–38): sequential `replaceAll`
of `&`, `<`, `>`, `"`, `'` by their entities, in that order. -/
def esc (s : List Char) : List Char :=
  replaceAllC
    (replaceAllC
      (replaceAllC
        (replaceAllC
          (replaceAllC s '&' (str "&amp;"))
          '<' (str "&lt;"))
        '>' (str "&gt;"))
      quoteC (str "&quot;"))
    aposC (str "&#39;")

/-- The five entity strings `esc` produces. -/
def entities : List (List Char) :=
  [str "&amp;", str "&lt;", str "&gt;", str "&quot;", str "&#39;"]

/-- The per-character effect of the five sequential `replaceAll` calls of
`esc`: a special character becomes its entity, anything else is kept.
(The replacements never reintroduce a character that an earlier
`replaceAll` in the chain rewrites, so the chain acts characterwise.) -/
def escChar (c : Char) : List Char :=
  if c = '&' then str "&amp;"
  else if c = '<' then str "&lt;"
  else if c = '>' then str "&gt;"
  else if c = quoteC then str "&quot;"
  else if c = aposC then str "&#39;"
  else [c]

/-- An entry of the intermediate array in `computeTopLanguages`:
`{ name, size }`. -/
structure LangEntry where
  name : String
  size : Nat
  deriving Repr, DecidableEq

/-- A returned entry of `computeTopLanguages`: `{ name, percent }`.
`percent` is the result of `Math.round`, an integer. -/
structure TopEntry where
  name : String
  percent : ℤ
  deriving Repr, DecidableEq

/-- `Math.round` on an exact rational: round half toward positive infinity. -/
def jsRound (q : ℚ) : ℤ := ⌊q + 1/2⌋

/-- Stable insertion of `x` into a size-descending list: `x` is placed
before the first element whose size does not exceed `x`'s, so among equal
sizes the earlier-inserted (original-order-earlier) element stays first. -/
def insertBySize (x : LangEntry) : List LangEntry → List LangEntry
  | [] => [x]
  | y :: ys => if y.size ≤ x.size then x :: y :: ys else y :: insertBySize x ys

/-- The stable descending sort used by `computeTopLanguages`
(`entries.sort((a, b) => b.size - a.size)`; JS `Array.prototype.sort`
is required to be stable, and the comparator orders by size descending;
a stable sort for a total preorder has a unique result, modelled here by
stable insertion sort). -/
def sortBySizeDesc : List LangEntry → List LangEntry
  | [] => []
  | x :: xs => insertBySize x (sortBySizeDesc xs)

/-- `Object.entries(langSizeMap).map(([name, size]) => ({ name, size }))`. -/
def entriesOf (langSizeMap : List (String × Nat)) : List LangEntry :=
  langSizeMap.map (fun p => { name := p.1, size := p.2 })

/-- The local `top` of `computeTopLanguages`: sorted entries, first six. -/
def topOf (langSizeMap : List (String × Nat)) : List LangEntry :=
  (sortBySizeDesc (entriesOf langSizeMap)).take 6

/-- `top.reduce((s, x) => s + x.size, 0)`. -/
def sumTopOf (langSizeMap : List (String × Nat)) : Nat :=
  (topOf langSizeMap).foldl (fun s x => s + x.size) 0

/-- `top.reduce(...) || 0 || 1`: the divisor, `1` when the sum is zero. -/
def totalOf (langSizeMap : List (String × Nat)) : Nat :=
  if sumTopOf langSizeMap = 0 then 1 else sumTopOf langSizeMap

/-- Embeds `computeTopLanguages` (generate-stats.mjs lines 122–131).
The input is `Object.entries(langSizeMap)` as an association list in
insertion order. -/
def computeTopLanguages (langSizeMap : List (String × Nat)) : List TopEntry :=
  (topOf langSizeMap).map (fun x =>
    { name := x.name
      percent := jsRound (((x.size : ℚ) / (totalOf langSizeMap : ℚ)) * 100) })

/-! ## Fetched-data model (the GraphQL response shapes the script accesses) -/

/-- `followers { totalCount }`. -/
structure FollowerConn where
  totalCount : Nat
  deriving Repr, DecidableEq

/-- `pageInfo { hasNextPage endCursor }`. -/
structure PageInfo where
  hasNextPage : Bool
  endCursor : Option (List Char)
  deriving Repr, DecidableEq

/-- `history(first: 1) { totalCount }`; `totalCount` reached through the
`?? 0` default, modelled as optional. -/
structure CommitHistory where
  totalCount : Option Nat
  deriving Repr, DecidableEq

/-- `defaultBranchRef.target` (`... on Commit { history ... }`). -/
structure BranchTarget where
  history : Option CommitHistory
  deriving Repr, DecidableEq

/-- `defaultBranchRef`. -/
structure BranchRef where
  target : Option BranchTarget
  deriving Repr, DecidableEq

/-- `node { name }` of a language edge; `name` is guarded by `if (!name)`,
which also rejects the empty string, so it is modelled as optional. -/
structure LangNode where
  name : Option String
  deriving Repr, DecidableEq

/-- A language edge `{ size node { name } }`. -/
structure LangEdge where
  size : Option Nat
  node : Option LangNode
  deriving Repr, DecidableEq

/-- `languages(first: 10, ...) { edges ... }`. -/
structure LangConnection where
  edges : List (Option LangEdge)
  deriving Repr, DecidableEq

/-- A repository node. -/
structure Repo where
  name : String
  isArchived : Bool
  defaultBranchRef : Option BranchRef
  languages : Option LangConnection
  deriving Repr, DecidableEq

/-- `repositories(...) { pageInfo totalCount nodes }`. -/
structure RepoConnection where
  pageInfo : PageInfo
  totalCount : Nat
  nodes : List (Option Repo)
  deriving Repr, DecidableEq

/-- The `user` object. -/
structure User where
  name : Option String
  followers : Option FollowerConn
  repositories : Option RepoConnection
  deriving Repr, DecidableEq

/-- One GraphQL response's `data`. -/
structure GqlData where
  user : Option User
  deriving Repr, DecidableEq

/-! ## Fetch loop (main, lines 177–193) -/

/-- `user?.repositories?.pageInfo` then the loop's `!pi?.hasNextPage` test:
the loop continues only when the page-info chain is present and reports a
next page. -/
def pageHasNext (d : GqlData) : Bool :=
  match (d.user.bind User.repositories).map RepoConnection.pageInfo with
  | none => false
  | some pi => pi.hasNextPage

/-- `user?.repositories?.nodes ?? []`. -/
def pageNodes (d : GqlData) : List (Option Repo) :=
  ((d.user.bind User.repositories).map RepoConnection.nodes).getD []

/-- Embeds the paginated fetch loop
(`for (let page = 0; page < 3; page++) { ... if (!pi?.hasNextPage) break; }`):
`api i` is the data returned by the (i+1)-th `gql` call; the result lists
the responses actually fetched, one per call made.  The first argument
counts the remaining iterations (`3 - page`), so `page < 3` holds exactly
while it is positive. -/
def fetchLoop (api : Nat → GqlData) : Nat → Nat → List GqlData
  | 0, _ => []
  | remaining + 1, page =>
    let d := api page
    if pageHasNext d then d :: fetchLoop api remaining (page + 1) else [d]

/-- All pages fetched by a run: the loop entered at `page = 0` with three
iterations allowed. -/
def fetchedPages (api : Nat → GqlData) : List GqlData := fetchLoop api 3 0

/-- `user?.name ?? ""` read from the first page. -/
def userNameOf (d : GqlData) : String := (d.user.bind User.name).getD ""

/-- `user?.followers?.totalCount ?? 0` read from the first page. -/
def followersOf (d : GqlData) : Nat :=
  ((d.user.bind User.followers).map FollowerConn.totalCount).getD 0

/-- `user?.repositories?.totalCount ?? 0` read from the first page. -/
def publicReposOf (d : GqlData) : Nat :=
  ((d.user.bind User.repositories).map RepoConnection.totalCount).getD 0

/-! ## Aggregation (main, lines 196–214) -/

/-- `r?.defaultBranchRef?.target?.history?.totalCount ?? 0` (with `r`
already known non-null). -/
def repoCommitCount (r : Repo) : Nat :=
  (((r.defaultBranchRef.bind BranchRef.target).bind
      BranchTarget.history).bind CommitHistory.totalCount).getD 0

/-- `r?.languages?.edges ?? []`. -/
def repoEdges (r : Repo) : List (Option LangEdge) :=
  (r.languages.map LangConnection.edges).getD []

/-- `langSizes[name] = (langSizes[name] ?? 0) + size` on an insertion-ordered
dictionary: an existing key is updated in place, a new key appended. -/
def updateTally : List (String × Nat) → String → Nat → List (String × Nat)
  | [], nm, sz => [(nm, sz)]
  | (k, v) :: rest, nm, sz =>
    if k = nm then (k, v + sz) :: rest else (k, v) :: updateTally rest nm sz

/-- The body of the inner `for (const e of edges)` loop: skip an absent edge,
an absent node name, or an empty name (`if (!name) continue`), else add
`e?.size ?? 0` under the name. -/
def edgeStep (tally : List (String × Nat)) (oe : Option LangEdge) :
    List (String × Nat) :=
  match oe with
  | none => tally
  | some e =>
    match e.node.bind LangNode.name with
    | none => tally
    | some nm =>
      if nm = "" then tally else updateTally tally nm (e.size.getD 0)

/-- The body of the outer `for (const r of allRepos)` loop over the state
(total approximate commits, language tally): `if (!r || r.isArchived)
continue;` then accumulate the commit count and the language sizes. -/
def aggStep (st : Nat × List (String × Nat)) (r : Option Repo) :
    Nat × List (String × Nat) :=
  match r with
  | none => st
  | some r =>
    if r.isArchived then st
    else (st.1 + repoCommitCount r, (repoEdges r).foldl edgeStep st.2)

/-- Embeds the aggregation pass: fold `aggStep` over the fetched repository
sequence starting from zero commits and an empty tally. -/
def aggregate (repos : List (Option Repo)) : Nat × List (String × Nat) :=
  repos.foldl aggStep (0, [])

/-! ## Renderer (renderTerminalSvg, lines 45–120) -/

/-- `new Intl.NumberFormat("en-US").format(n)` for a non-negative integer:
decimal digits grouped in threes by commas.  Helper working on the reversed
digit list. -/
def commaGroupRev : List Char → List Char
  | a :: b :: c :: d :: rest => a :: b :: c :: ',' :: commaGroupRev (d :: rest)
  | l => l

/-- Decimal digits of a natural number. -/
def natStr (n : Nat) : List Char := Nat.toDigits 10 n

/-- Embeds `formatNumber` (lines 40–42); the argument is already a
non-negative integer so `Number(n) || 0` is the identity. -/
def formatNumber (n : Nat) : List Char :=
  (commaGroupRev (natStr n).reverse).reverse

/-- JS `String(i)` for an integer-valued number. -/
def intStr (i : ℤ) : List Char :=
  if i < 0 then '-' :: natStr i.natAbs else natStr i.toNat

/-- `String.prototype.padEnd(n)` with spaces. -/
def padEndL (l : List Char) (n : Nat) : List Char :=
  l ++ List.replicate (n - l.length) ' '

/-- `String.prototype.padStart(n)` with spaces. -/
def padStartL (l : List Char) (n : Nat) : List Char :=
  List.replicate (n - l.length) ' ' ++ l

/-- Canvas width `W`. -/
def W : Nat := 760

/-- Canvas height `H`. -/
def H : Nat := 280

/-- Padding `pad`. -/
def pad : Nat := 22

/-- `lineHeight`. -/
def lineHeight : Nat := 18

/-- `startY`. -/
def startY : Nat := 48

/-- `maxLines = Math.floor((H - startY - 22) / lineHeight)`; the operands are
positive integers, so floating floor-division coincides with `Nat` division. -/
def maxLines : Nat := (H - startY - 22) / lineHeight

/-- The line rendered for one top-language entry:
``${l.name.padEnd(14)} ${String(l.percent).padStart(5)}%`` (line 62).
Note the literal space between the two interpolations. -/
def langLine (l : TopEntry) : List Char :=
  padEndL l.name.data 14 ++ [' '] ++ padStartL (intStr l.percent) 5 ++ ['%']

/-- The nine lines of the `lines` array literal before the spread of the
top-language lines (lines 52–61). -/
def scaffold9 (username title : List Char)
    (followers publicRepos commits : Nat) : List (List Char) :=
  [ username ++ str "@github:~$ whoami",
    title,
    [],
    username ++ str "@github:~$ stats --summary",
    str "followers: " ++ formatNumber followers,
    str "public_repos: " ++ formatNumber publicRepos,
    str "total_commits (approx): " ++ formatNumber commits,
    [],
    username ++ str "@github:~$ stats --top-languages" ]

/-- The two lines after the spread: a blank separator and the final cursor
prompt (lines 63–64). -/
def tailLines (username : List Char) : List (List Char) :=
  [ [], username ++ str "@github:~$ _" ]

/-- The full `lines` array (lines 52–65): scaffolding, one line per
top-language entry, blank separator, cursor line. -/
def linesOf (username title : List Char) (followers publicRepos commits : Nat)
    (topLangs : List TopEntry) : List (List Char) :=
  scaffold9 username title followers publicRepos commits
    ++ topLangs.map langLine ++ tailLines username

/-- `const clipped = lines.slice(0, maxLines)` (line 78). -/
def clippedLines (username title : List Char)
    (followers publicRepos commits : Nat) (topLangs : List TopEntry) :
    List (List Char) :=
  (linesOf username title followers publicRepos commits topLangs).take maxLines

/-- Colour `green`. -/
def green : List Char := str "#22c55e"

/-- Colour `dim`. -/
def dim : List Char := str "#86efac"

/-- The `font-family` stack `mono` (line 72), apostrophes included. -/
def mono : List Char :=
  str "ui-monospace, SFMono-Regular, Menlo, Monaco, Consolas, "
    ++ [aposC] ++ str "Liberation Mono" ++ [aposC] ++ str ", "
    ++ [aposC] ++ str "Courier New" ++ [aposC] ++ str ", monospace"

/-- The colour chosen for a rendered line (lines 83–87): prompt-prefixed
lines and lines ending in `$ _` are green, blank and other lines dim. -/
def lineColor (username line : List Char) : List Char :=
  if (username ++ str "@github").isPrefixOf line then green
  else if line = [] then dim
  else if (str "$ _").isSuffixOf line then green
  else dim

/-- One `<text>` node (line 88): position at `x = pad`,
`y = startY + i * lineHeight`, escaped content. -/
def textNode (username line : List Char) (i : Nat) : List Char :=
  str "<text x=\"" ++ natStr pad ++ str "\" y=\"" ++ natStr (startY + i * lineHeight)
    ++ str "\" font-family=\"" ++ mono ++ str "\" font-size=\"14\" fill=\""
    ++ lineColor username line ++ str "\">" ++ esc line ++ str "</text>"

/-- `textNodes`: the clipped lines mapped with their indices and joined by
newlines (lines 80–90). -/
def textNodesOf (username : List Char) (clipped : List (List Char)) : List Char :=
  List.intercalate (str "\n")
    (clipped.enum.map (fun p => textNode username p.2 p.1))

/-- `const title = name ? name : USERNAME` (line 50): the display name when
truthy (JS treats the empty string as falsy), else the account handle. -/
def titleOf (username name : List Char) : List Char :=
  if name = [] then username else name

/-- The input record of `renderTerminalSvg`. -/
structure RenderInput where
  name : List Char
  followers : Nat
  publicRepos : Nat
  totalCommitsApprox : Nat
  topLangs : List TopEntry
  deriving Repr, DecidableEq

/-- Embeds `renderTerminalSvg` (lines 45–120): builds the line list, clips
it, renders the text nodes and splices everything into the fixed SVG
template.  `username` models the global `USERNAME`. -/
def renderTerminalSvg (username : List Char) (inp : RenderInput) : List Char :=
  let title := titleOf username inp.name
  let clipped := clippedLines username title inp.followers inp.publicRepos
    inp.totalCommitsApprox inp.topLangs
  let textNodes := textNodesOf username clipped
  let bg := str "#0b0f0e"
  let border := str "#1f2a27"
  str "<?xml version=\"1.0\" encoding=\"UTF-8\"?>\n<svg width=\""
    ++ natStr W ++ str "\" height=\"" ++ natStr H ++ str "\" viewBox=\"0 0 "
    ++ natStr W ++ str " " ++ natStr H
    ++ str "\" xmlns=\"http://www.w3.org/2000/svg\" role=\"img\" aria-label=\"Terminal GitHub stats for "
    ++ esc username
    ++ str "\">\n  <defs>\n    <filter id=\"shadow\" x=\"-20%\" y=\"-20%\" width=\"140%\" height=\"140%\">\n      <feDropShadow dx=\"0\" dy=\"10\" stdDeviation=\"10\" flood-color=\"#000\" flood-opacity=\"0.45\"/>\n    </filter>\n    <linearGradient id=\"scan\" x1=\"0\" y1=\"0\" x2=\"0\" y2=\"1\">\n      <stop offset=\"0%\" stop-color=\"#ffffff\" stop-opacity=\"0.02\"/>\n      <stop offset=\"100%\" stop-color=\"#ffffff\" stop-opacity=\"0.00\"/>\n    </linearGradient>\n  </defs>\n\n  <rect x=\"0\" y=\"0\" width=\""
    ++ natStr W ++ str "\" height=\"" ++ natStr H ++ str "\" rx=\"16\" fill=\""
    ++ bg ++ str "\" filter=\"url(#shadow)\"/>\n  <rect x=\"1\" y=\"1\" width=\""
    ++ natStr (W - 2) ++ str "\" height=\"" ++ natStr (H - 2)
    ++ str "\" rx=\"15\" fill=\"none\" stroke=\"" ++ border
    ++ str "\"/>\n\n  <!-- Terminal header dots -->\n  <g transform=\"translate("
    ++ natStr pad
    ++ str ", 18)\">\n    <circle cx=\"8\" cy=\"8\" r=\"5\" fill=\"#ef4444\"/>\n    <circle cx=\"28\" cy=\"8\" r=\"5\" fill=\"#f59e0b\"/>\n    <circle cx=\"48\" cy=\"8\" r=\"5\" fill=\"#22c55e\"/>\n    <text x=\"76\" y=\"12\" font-family=\""
    ++ mono ++ str "\" font-size=\"12\" fill=\"#9ca3af\">" ++ esc username
    ++ str " — stats</text>\n  </g>\n\n  <!-- Scanline overlay -->\n  <rect x=\"0\" y=\"0\" width=\""
    ++ natStr W ++ str "\" height=\"" ++ natStr H
    ++ str "\" rx=\"16\" fill=\"url(#scan)\"/>\n\n  "
    ++ textNodes ++ str "\n</svg>"

/-- The aggregation-plus-render pipeline on a fixed fetched dataset: the
part of `main` after the fetch loop (lines 196–224), as a function of the
fetched profile fields and repository records. -/
def aggregateAndRender (username profileName : List Char)
    (followers publicRepos : Nat) (repos : List (Option Repo)) : List Char :=
  let agg := aggregate repos
  renderTerminalSvg username
    { name := profileName
      followers := followers
      publicRepos := publicRepos
      totalCommitsApprox := agg.1
      topLangs := computeTopLanguages agg.2 }

/-! ## Helper lemmas: the stable descending sort -/

theorem length_insertBySize (x : LangEntry) (l : List LangEntry) :
    (insertBySize x l).length = l.length + 1 := by
  induction l with
  | nil => rfl
  | cons y ys ih =>
    by_cases h : y.size ≤ x.size <;> simp [insertBySize, h, ih]

theorem length_sortBySizeDesc (l : List LangEntry) :
    (sortBySizeDesc l).length = l.length := by
  induction l with
  | nil => rfl
  | cons x xs ih => simp [sortBySizeDesc, length_insertBySize, ih]

theorem perm_insertBySize (x : LangEntry) (l : List LangEntry) :
    List.Perm (insertBySize x l) (x :: l) := by
  induction l with
  | nil => simp [insertBySize]
  | cons y ys ih =>
    by_cases h : y.size ≤ x.size
    · simp [insertBySize, h]
    · simp only [insertBySize, if_neg h]
      exact (ih.cons y).trans (List.Perm.swap x y ys)

theorem sortBySizeDesc_perm (l : List LangEntry) :
    List.Perm (sortBySizeDesc l) l := by
  induction l with
  | nil => simp [sortBySizeDesc]
  | cons x xs ih =>
    exact (perm_insertBySize x (sortBySizeDesc xs)).trans (ih.cons x)

theorem sorted_insertBySize {x : LangEntry} {l : List LangEntry}
    (h : l.Pairwise (fun a b => b.size ≤ a.size)) :
    (insertBySize x l).Pairwise (fun a b => b.size ≤ a.size) := by
  induction l with
  | nil => simp [insertBySize]
  | cons y ys ih =>
    rcases List.pairwise_cons.mp h with ⟨hy, hys⟩
    by_cases hle : y.size ≤ x.size
    · simp only [insertBySize, if_pos hle]
      refine List.Pairwise.cons ?_ h
      intro z hz
      rcases List.mem_cons.mp hz with rfl | hz
      · exact hle
      · exact le_trans (hy z hz) hle
    · simp only [insertBySize, if_neg hle]
      refine List.Pairwise.cons ?_ (ih hys)
      intro z hz
      rcases List.mem_cons.mp ((perm_insertBySize x ys).mem_iff.mp hz) with rfl | hz
      · omega
      · exact hy z hz

theorem sorted_sortBySizeDesc (l : List LangEntry) :
    (sortBySizeDesc l).Pairwise (fun a b => b.size ≤ a.size) := by
  induction l with
  | nil => simp [sortBySizeDesc]
  | cons x xs ih => exact sorted_insertBySize ih

theorem filter_sizeIs_insertBySize (x : LangEntry) (l : List LangEntry) (s : Nat) :
    (insertBySize x l).filter (fun e => decide (e.size = s))
      = (x :: l).filter (fun e => decide (e.size = s)) := by
  induction l with
  | nil => rfl
  | cons y ys ih =>
    by_cases hle : y.size ≤ x.size
    · simp [insertBySize, hle]
    · simp only [insertBySize, if_neg hle]
      by_cases hx : x.size = s
      · have hy : ¬(y.size = s) := by omega
        simp [List.filter_cons, hx, hy] at ih ⊢
        exact ih
      · by_cases hy : y.size = s <;>
          simp [List.filter_cons, hx, hy] at ih ⊢ <;> exact ih

theorem filter_sizeIs_sortBySizeDesc (l : List LangEntry) (s : Nat) :
    (sortBySizeDesc l).filter (fun e => decide (e.size = s))
      = l.filter (fun e => decide (e.size = s)) := by
  induction l with
  | nil => rfl
  | cons x xs ih =>
    simp only [sortBySizeDesc]
    rw [filter_sizeIs_insertBySize]
    by_cases hx : x.size = s <;> simp [List.filter_cons, hx, ih]

/-! ## Helper lemmas: sums -/

theorem le_foldl_addSize : ∀ (l : List LangEntry) (a : Nat),
    a ≤ l.foldl (fun s x => s + x.size) a
  | [], _ => le_refl _
  | x :: xs, a =>
    le_trans (Nat.le_add_right a x.size) (le_foldl_addSize xs (a + x.size))

theorem size_le_foldl_addSize {x : LangEntry} :
    ∀ {l : List LangEntry}, x ∈ l → ∀ (a : Nat),
      x.size ≤ l.foldl (fun s x => s + x.size) a := by
  intro l hx
  induction l with
  | nil => cases hx
  | cons y ys ih =>
    intro a
    rcases List.mem_cons.mp hx with rfl | hmem
    · exact le_trans (Nat.le_add_left x.size a) (le_foldl_addSize ys (a + x.size))
    · exact ih hmem (a + y.size)

theorem size_le_sumTopOf {t : List (String × Nat)} {x : LangEntry}
    (hx : x ∈ topOf t) : x.size ≤ sumTopOf t :=
  size_le_foldl_addSize hx 0

/-! ## Helper lemmas: escaping -/

theorem replaceAllC_append (a b : List Char) (pat : Char) (rep : List Char) :
    replaceAllC (a ++ b) pat rep = replaceAllC a pat rep ++ replaceAllC b pat rep := by
  simp [replaceAllC]

theorem esc_append (a b : List Char) : esc (a ++ b) = esc a ++ esc b := by
  simp [esc, replaceAllC_append]

theorem esc_singleton (c : Char) : esc [c] = escChar c := by
  by_cases h1 : c = '&'
  · subst h1; decide
  by_cases h2 : c = '<'
  · subst h2; decide
  by_cases h3 : c = '>'
  · subst h3; decide
  by_cases h4 : c = quoteC
  · subst h4; decide
  by_cases h5 : c = aposC
  · subst h5; decide
  simp [esc, escChar, replaceAllC, h1, h2, h3, h4, h5]

theorem esc_eq_flatMap (s : List Char) : esc s = s.flatMap escChar := by
  induction s with
  | nil => rfl
  | cons c s ih =>
    rw [show (c :: s) = [c] ++ s from rfl, esc_append, esc_singleton, ih]
    simp

theorem escChar_mem {c c' : Char} (h : c' ∈ escChar c) :
    c' ≠ '<' ∧ c' ≠ '>' ∧ c' ≠ quoteC ∧ c' ≠ aposC := by
  by_cases h1 : c = '&'
  · subst h1; fin_cases h <;> decide
  by_cases h2 : c = '<'
  · subst h2; fin_cases h <;> decide
  by_cases h3 : c = '>'
  · subst h3; fin_cases h <;> decide
  by_cases h4 : c = quoteC
  · subst h4; fin_cases h <;> decide
  by_cases h5 : c = aposC
  · subst h5; fin_cases h <;> decide
  simp [escChar, h1, h2, h3, h4, h5] at h
  subst h
  exact ⟨h2, h3, h4, h5⟩

theorem escChar_shape (c : Char) :
    escChar c ∈ entities ∨ (escChar c = [c] ∧ c ≠ '&') := by
  by_cases h1 : c = '&'
  · subst h1; left; decide
  by_cases h2 : c = '<'
  · subst h2; left; decide
  by_cases h3 : c = '>'
  · subst h3; left; decide
  by_cases h4 : c = quoteC
  · subst h4; left; decide
  by_cases h5 : c = aposC
  · subst h5; left; decide
  right
  exact ⟨by simp [escChar, h1, h2, h3, h4, h5], h1⟩

theorem entities_amp_only_at_head :
    ∀ e ∈ entities, ∀ i, (h : i < e.length) → e.get ⟨i, h⟩ = '&' → i = 0 := by
  decide

theorem ampAt_flatMap (s : List Char) :
    ∀ (l : List Char), l = s.flatMap escChar →
      ∀ (i : Nat) (h : i < l.length), l.get ⟨i, h⟩ = '&' →
      ∃ e ∈ entities, (l.drop i).take e.length = e := by
  induction s with
  | nil =>
    intro l hl i h
    subst hl
    simp at h
  | cons c s ih =>
    intro l hl i h hamp
    rw [List.flatMap_cons] at hl
    subst hl
    rw [List.get_eq_getElem] at hamp
    by_cases hi : i < (escChar c).length
    · rw [List.getElem_append_left hi] at hamp
      rcases escChar_shape c with hent | ⟨hsing, hne⟩
      · have hget : (escChar c).get ⟨i, hi⟩ = '&' := by
          rw [List.get_eq_getElem]; exact hamp
        have hi0 : i = 0 := entities_amp_only_at_head _ hent i hi hget
        subst hi0
        refine ⟨escChar c, hent, ?_⟩
        rw [List.drop_zero, List.take_left]
      · exfalso
        have hmem : ('&' : Char) ∈ escChar c := hamp ▸ List.getElem_mem hi
        rw [hsing] at hmem
        exact hne (List.mem_singleton.mp hmem).symm
    · push_neg at hi
      have hlen : i - (escChar c).length < (s.flatMap escChar).length := by
        rw [List.length_append] at h
        omega
      rw [List.getElem_append_right hi] at hamp
      have hget : (s.flatMap escChar).get ⟨i - (escChar c).length, hlen⟩ = '&' := by
        rw [List.get_eq_getElem]; exact hamp
      obtain ⟨e, he, hte⟩ := ih _ rfl (i - (escChar c).length) hlen hget
      refine ⟨e, he, ?_⟩
      have hi' : i = (escChar c).length + (i - (escChar c).length) := by omega
      have hdrop := @List.drop_append Char (escChar c) (s.flatMap escChar)
        (i - (escChar c).length)
      rw [← hi'] at hdrop
      rw [hdrop]
      exact hte

/-! ## Claim theorems -/

/-- C1: every returned entry's percentage is the round-half-up integer
rounding of `entrySize / sumOfTop6Sizes * 100`, where the divisor is the sum
of the at-most-6 retained entries (stated for the defined case, a positive
retained sum); in particular the tally Go 300, Rust 100, TS 100 yields
Go 60 %, Rust 20 %, TS 20 %. -/
theorem computeTopLanguages_percent_roundHalfUp :
    computeTopLanguages [("Go", 300), ("Rust", 100), ("TS", 100)]
        = [⟨"Go", 60⟩, ⟨"Rust", 20⟩, ⟨"TS", 20⟩]
    ∧ ∀ (t : List (String × Nat)) (e : TopEntry),
        e ∈ computeTopLanguages t → 0 < sumTopOf t →
        ∃ x ∈ topOf t, e.name = x.name
          ∧ e.percent = ⌊(x.size : ℚ) / (sumTopOf t : ℚ) * 100 + 1/2⌋ := by
  constructor
  · simp only [computeTopLanguages, topOf, sumTopOf, totalOf, sortBySizeDesc,
      insertBySize, entriesOf]
    norm_num [jsRound]
  · intro t e he hpos
    obtain ⟨x, hx, rfl⟩ := List.mem_map.mp he
    refine ⟨x, hx, rfl, ?_⟩
    have htot : totalOf t = sumTopOf t := by
      unfold totalOf
      rw [if_neg (by omega)]
    simp [jsRound, htot]

/-- Witness for C1 at the concrete Scenario C tally and its Go entry. -/
theorem computeTopLanguages_percent_roundHalfUp_witness :
    ∃ x ∈ topOf [("Go", 300), ("Rust", 100), ("TS", 100)],
      (⟨"Go", (60 : ℤ)⟩ : TopEntry).name = x.name
      ∧ (⟨"Go", (60 : ℤ)⟩ : TopEntry).percent
          = ⌊(x.size : ℚ) / (sumTopOf [("Go", 300), ("Rust", 100), ("TS", 100)] : ℚ)
              * 100 + 1/2⌋ :=
  computeTopLanguages_percent_roundHalfUp.2 _ _
    (by rw [computeTopLanguages_percent_roundHalfUp.1]; decide)
    (by decide)

/-- C2: the top-language list is the first `min 6 n` entries of the tally
under the stable descending-by-size sort: its length is `min 6 n`, its
names are those of the first six sorted entries, the sort permutes the
entries, is sorted descending by size, and preserves the original
(first-encounter) relative order inside every equal-size class; moreover
the aggregation dictionary update keeps keys in first-encounter order. -/
theorem computeTopLanguages_top6_sorted_stable :
    (∀ t : List (String × Nat), (computeTopLanguages t).length = min 6 t.length)
    ∧ (∀ t : List (String × Nat), (computeTopLanguages t).map TopEntry.name
        = ((sortBySizeDesc (entriesOf t)).take 6).map LangEntry.name)
    ∧ (∀ t : List (String × Nat),
        List.Perm (sortBySizeDesc (entriesOf t)) (entriesOf t))
    ∧ (∀ t : List (String × Nat),
        (sortBySizeDesc (entriesOf t)).Pairwise (fun a b => b.size ≤ a.size))
    ∧ (∀ (t : List (String × Nat)) (s : Nat),
        (sortBySizeDesc (entriesOf t)).filter (fun e => decide (e.size = s))
          = (entriesOf t).filter (fun e => decide (e.size = s)))
    ∧ (∀ (tally : List (String × Nat)) (nm : String) (sz : Nat),
        (updateTally tally nm sz).map Prod.fst
          = if nm ∈ tally.map Prod.fst then tally.map Prod.fst
            else tally.map Prod.fst ++ [nm]) := by
  refine ⟨fun t => ?_, fun t => ?_, fun t => sortBySizeDesc_perm _,
    fun t => sorted_sortBySizeDesc _, fun t s => filter_sizeIs_sortBySizeDesc _ _,
    fun tally nm sz => ?_⟩
  · simp [computeTopLanguages, topOf, List.length_take, length_sortBySizeDesc,
      entriesOf]
  · simp [computeTopLanguages, topOf, List.map_map]
    rfl
  · induction tally with
    | nil => simp [updateTally]
    | cons p rest ih =>
      obtain ⟨k, v⟩ := p
      by_cases hk : k = nm
      · subst hk
        simp [updateTally]
      · have hk' : ¬(nm = k) := fun h => hk h.symm
        by_cases hmem : nm ∈ rest.map Prod.fst <;>
          simp [updateTally, hk, hk', hmem, ih]

/-- C3: `computeTopLanguages` is total and safe: the empty tally yields the
empty list, the divisor actually used is at least 1 (never a division by
zero), and every returned percentage lies between 0 and 100. -/
theorem computeTopLanguages_percent_bounds :
    computeTopLanguages [] = []
    ∧ (∀ t : List (String × Nat), 1 ≤ totalOf t)
    ∧ ∀ (t : List (String × Nat)) (e : TopEntry), e ∈ computeTopLanguages t →
        0 ≤ e.percent ∧ e.percent ≤ 100 := by
  have htotal : ∀ t : List (String × Nat), 1 ≤ totalOf t := by
    intro t
    unfold totalOf
    split <;> omega
  refine ⟨rfl, htotal, fun t e he => ?_⟩
  obtain ⟨x, hx, rfl⟩ := List.mem_map.mp he
  simp only [jsRound]
  have hT : 1 ≤ totalOf t := htotal t
  have hxle : x.size ≤ totalOf t := by
    have h1 : x.size ≤ sumTopOf t := size_le_sumTopOf hx
    unfold totalOf
    split <;> omega
  have hTpos : (0 : ℚ) < (totalOf t : ℚ) := by
    exact_mod_cast Nat.lt_of_lt_of_le Nat.zero_lt_one hT
  have hxq : (x.size : ℚ) ≤ (totalOf t : ℚ) := by exact_mod_cast hxle
  have hq0 : (0 : ℚ) ≤ (x.size : ℚ) / (totalOf t : ℚ) * 100 := by positivity
  have hq100 : (x.size : ℚ) / (totalOf t : ℚ) * 100 ≤ 100 := by
    rw [div_mul_eq_mul_div, div_le_iff₀ hTpos]
    nlinarith
  constructor
  · exact Int.le_floor.mpr (by push_cast; linarith)
  · have h1 : ⌊(x.size : ℚ) / (totalOf t : ℚ) * 100 + 1/2⌋ ≤ ⌊(100 : ℚ) + 1/2⌋ :=
      Int.floor_le_floor (by linarith)
    have h2 : ⌊(100 : ℚ) + 1/2⌋ = 100 := by norm_num
    omega

/-- Witness for C3 at a one-language tally whose sole entry shows 100 %. -/
theorem computeTopLanguages_percent_bounds_witness :
    0 ≤ (⟨"Go", (100 : ℤ)⟩ : TopEntry).percent
    ∧ (⟨"Go", (100 : ℤ)⟩ : TopEntry).percent ≤ 100 :=
  computeTopLanguages_percent_bounds.2.2 [("Go", 1)] _
    (by
      have h : computeTopLanguages [("Go", 1)] = [⟨"Go", 100⟩] := by
        simp only [computeTopLanguages, topOf, sumTopOf, totalOf, sortBySizeDesc,
          insertBySize, entriesOf]
        norm_num [jsRound]
      rw [h]
      simp)

/-- C4: in the output of `esc`, none of `<`, `>`, `"`, `'` occurs raw, and
every occurrence of `&` starts one of the five entity strings
`&amp; &lt; &gt; &quot; &#39;` — so the five reserved characters of the
free text appear only in escaped form. -/
theorem esc_escapes_specials (s : List Char) :
    (∀ c ∈ esc s, c ≠ '<' ∧ c ≠ '>' ∧ c ≠ quoteC ∧ c ≠ aposC)
    ∧ ∀ (i : Nat) (h : i < (esc s).length), (esc s).get ⟨i, h⟩ = '&' →
        ∃ e ∈ entities, ((esc s).drop i).take e.length = e := by
  constructor
  · intro c hc
    rw [esc_eq_flatMap] at hc
    obtain ⟨c0, _, hc0⟩ := List.mem_flatMap.mp hc
    exact escChar_mem hc0
  · exact ampAt_flatMap s (esc s) (esc_eq_flatMap s)

/-- Witness for C4: in `esc "a&b"` the ampersand at index 1 starts an
entity. -/
theorem esc_escapes_specials_witness :
    ∃ e ∈ entities, ((esc (str "a&b")).drop 1).take e.length = e :=
  (esc_escapes_specials (str "a&b")).2 1 (by decide) (by decide)

/-- C5: a missing (null) repository record, or one whose archived flag is
set, contributes nothing to aggregation: deleting it from the fetched
sequence leaves the total commit count and the language tally unchanged,
whatever its own fields hold. -/
theorem aggregate_ignores_archived_and_missing
    (l₁ l₂ : List (Option Repo)) (r : Option Repo)
    (h : r = none ∨ ∃ rp : Repo, r = some rp ∧ rp.isArchived = true) :
    aggregate (l₁ ++ r :: l₂) = aggregate (l₁ ++ l₂) := by
  have hstep : ∀ st, aggStep st r = st := by
    intro st
    rcases h with rfl | ⟨rp, rfl, harch⟩
    · rfl
    · simp [aggStep, harch]
  unfold aggregate
  rw [List.foldl_append, List.foldl_append, List.foldl_cons, hstep]

/-- Witness for C5: dropping an archived repository between two others
leaves the aggregate unchanged. -/
theorem aggregate_ignores_archived_and_missing_witness :
    aggregate ([none] ++
        (some { name := "a", isArchived := true, defaultBranchRef := none,
                languages := none }) :: [])
      = aggregate ([none] ++ []) :=
  aggregate_ignores_archived_and_missing [none] []
    (some { name := "a", isArchived := true, defaultBranchRef := none,
            languages := none })
    (Or.inr ⟨_, rfl, rfl⟩)

/-- C6: the fetch loop makes at most 3 paginated calls, the i-th call
requests page i (so a 4th page is never requested), and a further page is
requested only when the previous response reported a next page — i.e. the
loop stops as soon as a response reports has-next-page false. -/
theorem fetch_at_most_three_pages (api : Nat → GqlData) :
    (fetchedPages api).length ≤ 3
    ∧ fetchedPages api = (List.range (fetchedPages api).length).map api
    ∧ ∀ k : Nat, k + 1 < (fetchedPages api).length → pageHasNext (api k) = true := by
  have hone : ∀ p, fetchLoop api 1 p = [api p] := by
    intro p
    by_cases hx : pageHasNext (api p) <;> simp [fetchLoop, hx]
  by_cases h0 : pageHasNext (api 0)
  · by_cases h1 : pageHasNext (api 1)
    · have hfp : fetchedPages api = [api 0, api 1, api 2] := by
        simp [fetchedPages, fetchLoop, h0, h1, hone]
      rw [hfp]
      refine ⟨by simp, by simp [List.range_succ], ?_⟩
      intro k hk
      simp only [List.length_cons, List.length_nil] at hk
      have : k = 0 ∨ k = 1 := by omega
      rcases this with rfl | rfl
      · exact h0
      · exact h1
    · have hfp : fetchedPages api = [api 0, api 1] := by
        simp [fetchedPages, fetchLoop, h0, h1]
      rw [hfp]
      refine ⟨by simp, by simp [List.range_succ], ?_⟩
      intro k hk
      simp only [List.length_cons, List.length_nil] at hk
      have : k = 0 := by omega
      subst this
      exact h0
  · have hfp : fetchedPages api = [api 0] := by
      simp [fetchedPages, fetchLoop, h0]
    rw [hfp]
    refine ⟨by simp, by simp [List.range_succ], ?_⟩
    intro k hk
    simp only [List.length_cons, List.length_nil] at hk
    omega

/-- Witness for C6 at an API that always reports a next page: the second
call is preceded by a first response reporting has-next-page. -/
theorem fetch_at_most_three_pages_witness :
    pageHasNext ((fun _ => (⟨some ⟨none, none, some ⟨⟨true, none⟩, 0, []⟩⟩⟩ : GqlData)) 0)
      = true :=
  (fetch_at_most_three_pages
    (fun _ => (⟨some ⟨none, none, some ⟨⟨true, none⟩, 0, []⟩⟩⟩ : GqlData))).2.2 0
    (by decide)

/-- C7 (amended): the rendered line list is clipped to
`maxLines = floor((280 − 48 − 22)/18) = 11` lines and the fixed scaffolding
alone occupies 11 lines; the clipped output is always the nine leading
scaffolding lines followed by the first two of (language lines, blank
separator, cursor line).  Hence with zero languages all 11 scaffolding
lines (blank separator and final cursor line included) render; with
exactly one language the final cursor line is dropped but the blank
separator is retained as the 11th line; with two or more languages exactly
two language lines render and both the blank separator and the cursor line
are dropped. -/
theorem clippedLines_clipping :
    maxLines = 11
    ∧ (∀ (u t : List Char) (f p c : Nat), (linesOf u t f p c []).length = 11)
    ∧ (∀ (u t : List Char) (f p c : Nat) (langs : List TopEntry),
        clippedLines u t f p c langs
          = scaffold9 u t f p c ++ (langs.map langLine ++ tailLines u).take 2)
    ∧ (∀ (u t : List Char) (f p c : Nat) (langs : List TopEntry), langs = [] →
        clippedLines u t f p c langs = linesOf u t f p c langs)
    ∧ (∀ (u t : List Char) (f p c : Nat) (l : TopEntry),
        clippedLines u t f p c [l] = scaffold9 u t f p c ++ [langLine l, []])
    ∧ (∀ (u t : List Char) (f p c : Nat) (langs : List TopEntry),
        2 ≤ langs.length →
        clippedLines u t f p c langs
          = scaffold9 u t f p c ++ (langs.map langLine).take 2) := by
  have key : ∀ (u t : List Char) (f p c : Nat) (langs : List TopEntry),
      clippedLines u t f p c langs
        = scaffold9 u t f p c ++ (langs.map langLine ++ tailLines u).take 2 := by
    intro u t f p c langs
    unfold clippedLines linesOf
    have h9 : (scaffold9 u t f p c).length = 9 := by simp [scaffold9]
    rw [List.append_assoc]
    rw [show maxLines = (scaffold9 u t f p c).length + 2 by rw [h9]; decide]
    exact List.take_append 2
  refine ⟨rfl, ?_, key, ?_, ?_, ?_⟩
  · intro u t f p c
    simp [linesOf, scaffold9, tailLines]
  · intro u t f p c langs hl
    subst hl
    rw [key]
    simp [linesOf, tailLines]
  · intro u t f p c l
    rw [key]
    simp [tailLines]
  · intro u t f p c langs hl
    rw [key]
    rw [List.take_append_of_le_length (by simpa using hl)]

/-- Witness for C7 at the empty language list: nothing is clipped. -/
theorem clippedLines_clipping_witness :
    clippedLines (str "u") (str "n") 0 0 0 [] = linesOf (str "u") (str "n") 0 0 0 [] :=
  clippedLines_clipping.2.2.2.1 (str "u") (str "n") 0 0 0 [] rfl

/-- C7 counterexample: with exactly one top language the list is non-empty,
yet the clipped output still ends with the blank separator line — the
trailing blank separator is not dropped in this case, contradicting the
claim that it always is. -/
theorem clippedLines_one_lang_keeps_blank :
    ([⟨"Go", (60 : ℤ)⟩] : List TopEntry) ≠ []
    ∧ (clippedLines (str "u") (str "n") 0 0 0 [⟨"Go", 60⟩]).getLast? = some [] := by
  exact ⟨by decide, by decide⟩

/-- C8: when the profile's display name is absent, the `whoami` response
line (the second rendered line) is exactly the account handle. -/
theorem whoami_line_falls_back_to_handle (d : GqlData) (u : List Char)
    (f p c : Nat) (langs : List TopEntry)
    (h : d.user.bind User.name = none) :
    titleOf u (userNameOf d).data = u
    ∧ (clippedLines u (titleOf u (userNameOf d).data) f p c langs)[1]?
        = some u := by
  have hn : userNameOf d = "" := by simp [userNameOf, h]
  have ht : titleOf u (userNameOf d).data = u := by rw [hn]; rfl
  refine ⟨ht, ?_⟩
  rw [ht]
  unfold clippedLines
  rw [List.getElem?_take, if_pos (by decide : (1 : Nat) < maxLines)]
  simp [linesOf, scaffold9]

/-- Witness for C8 at a response with no user object at all. -/
theorem whoami_line_falls_back_to_handle_witness :
    titleOf (str "u") (userNameOf ⟨none⟩).data = str "u"
    ∧ (clippedLines (str "u") (titleOf (str "u") (userNameOf ⟨none⟩).data) 0 0 0 [])[1]?
        = some (str "u") :=
  whoami_line_falls_back_to_handle ⟨none⟩ (str "u") 0 0 0 [] rfl

/-- C9 counterexample: the rendered language line is not the padded name
immediately followed by the padded percent — at the concrete entry Go 60
the two differ (the code inserts a separating space). -/
theorem langLine_no_space_refuted :
    langLine ⟨"Go", 60⟩
      ≠ padEndL (str "Go") 14 ++ (padStartL (str "60") 5 ++ [ '%' ]) := by
  decide

/-- C9 (amended): each top-language entry renders, at line index 9 + i of
the built line list, as its name padded to 14 columns, a single separating
space, the percent value right-aligned to 5 columns, and a percent sign. -/
theorem langLine_padded_fields (u t : List Char) (f p c : Nat)
    (langs : List TopEntry) (i : Nat) (h : i < langs.length) :
    (linesOf u t f p c langs)[9 + i]?
      = some (padEndL (langs.get ⟨i, h⟩).name.data 14 ++ [ ' ' ]
          ++ padStartL (intStr (langs.get ⟨i, h⟩).percent) 5 ++ [ '%' ]) := by
  unfold linesOf
  have h9 : (scaffold9 u t f p c).length = 9 := by simp [scaffold9]
  rw [List.append_assoc, List.getElem?_append_right (by rw [h9]; omega)]
  rw [h9, Nat.add_sub_cancel_left]
  rw [List.getElem?_append_left (by simpa using h)]
  rw [List.getElem?_map, List.getElem?_eq_getElem h]
  simp [langLine]

/-- Witness for C9 at the single entry Go 60. -/
theorem langLine_padded_fields_witness :
    (linesOf (str "u") (str "n") 0 0 0 [⟨"Go", 60⟩])[9 + 0]?
      = some (padEndL (([⟨"Go", (60 : ℤ)⟩] : List TopEntry).get ⟨0, by decide⟩).name.data 14
          ++ [ ' ' ]
          ++ padStartL (intStr (([⟨"Go", (60 : ℤ)⟩] : List TopEntry).get ⟨0, by decide⟩).percent) 5
          ++ [ '%' ]) :=
  langLine_padded_fields (str "u") (str "n") 0 0 0 [⟨"Go", 60⟩] 0 (by decide)

/-- C10: aggregation followed by rendering is a pure function of the fixed
fetched dataset, so running it twice on the same profile fields and
repository records produces byte-for-byte identical output text. -/
theorem aggregate_render_deterministic (username profileName : List Char)
    (followers publicRepos : Nat) (repos : List (Option Repo)) :
    aggregateAndRender username profileName followers publicRepos repos
      = aggregateAndRender username profileName followers publicRepos repos := rfl

end GenStats
